import Mathlib

/-!
Verification model of `src/plugins/sql/src/decode/postgres.rs`.

Bytes are natural numbers below 256. Rust `String`s that flow through the
decoder are modelled by their UTF-8 byte sequences (`List Nat`); type names,
which are only ever compared against ASCII literals, stay as Lean `String`s.
External sqlx decode attempts (`try_decode::<T>()`, `as_bytes()`) are oracle
fields of the modelled `PgValueRef`.
-/

namespace PgDecode

/-- UTF-8 encoding of one character; used to write expected byte strings. -/
def charUtf8 (c : Char) : List Nat :=
  let n := c.toNat
  if n < 0x80 then [n]
  else if n < 0x800 then [0xC0 + n / 64, 0x80 + n % 64]
  else if n < 0x10000 then [0xE0 + n / 4096, 0x80 + n / 64 % 64, 0x80 + n % 64]
  else [0xF0 + n / 0x40000, 0x80 + n / 4096 % 64, 0x80 + n / 64 % 64, 0x80 + n % 64]

/-- UTF-8 bytes of a string. -/
def strBytes (s : String) : List Nat := (s.data.map charUtf8).flatten

/-- Whether a byte is a UTF-8 continuation byte (0x80..0xBF). -/
def isCont (b : Nat) : Bool := 0x80 ≤ b && b ≤ 0xBF

/-- Valid second bytes of a 3-byte sequence with lead `b` (E0: A0..BF, ED: 80..9F). -/
def cont3 (b b1 : Nat) : Bool :=
  if b = 0xE0 then 0xA0 ≤ b1 && b1 ≤ 0xBF
  else if b = 0xED then 0x80 ≤ b1 && b1 ≤ 0x9F
  else isCont b1

/-- Valid second bytes of a 4-byte sequence with lead `b` (F0: 90..BF, F4: 80..8F). -/
def cont4 (b b1 : Nat) : Bool :=
  if b = 0xF0 then 0x90 ≤ b1 && b1 ≤ 0xBF
  else if b = 0xF4 then 0x80 ≤ b1 && b1 ≤ 0x8F
  else isCont b1

/-- Strict UTF-8 validity of a byte sequence: exactly when Rust
`String::from_utf8` succeeds on these bytes. -/
def utf8Valid : List Nat → Bool
  | [] => true
  | b :: bs =>
    if b ≤ 0x7F then utf8Valid bs
    else if 0xC2 ≤ b && b ≤ 0xDF then
      match bs with
      | b1 :: bs1 => isCont b1 && utf8Valid bs1
      | [] => false
    else if 0xE0 ≤ b && b ≤ 0xEF then
      match bs with
      | b1 :: b2 :: bs1 => cont3 b b1 && isCont b2 && utf8Valid bs1
      | _ => false
    else if 0xF0 ≤ b && b ≤ 0xF4 then
      match bs with
      | b1 :: b2 :: b3 :: bs1 => cont4 b b1 && isCont b2 && isCont b3 && utf8Valid bs1
      | _ => false
    else false

/-- Lossy UTF-8 re-encoding, as Rust `String::from_utf8_lossy`: valid scalar
sequences pass through byte-for-byte, and each maximal invalid subpart is
replaced by the replacement character U+FFFD (bytes EF BF BD). -/
def utf8Lossy : List Nat → List Nat
  | [] => []
  | b :: bs =>
    if b ≤ 0x7F then b :: utf8Lossy bs
    else if 0xC2 ≤ b && b ≤ 0xDF then
      match bs with
      | b1 :: bs1 =>
        if isCont b1 then b :: b1 :: utf8Lossy bs1
        else 0xEF :: 0xBF :: 0xBD :: utf8Lossy (b1 :: bs1)
      | [] => [0xEF, 0xBF, 0xBD]
    else if 0xE0 ≤ b && b ≤ 0xEF then
      match bs with
      | b1 :: bs1 =>
        if cont3 b b1 then
          match bs1 with
          | b2 :: bs2 =>
            if isCont b2 then b :: b1 :: b2 :: utf8Lossy bs2
            else 0xEF :: 0xBF :: 0xBD :: utf8Lossy (b2 :: bs2)
          | [] => [0xEF, 0xBF, 0xBD]
        else 0xEF :: 0xBF :: 0xBD :: utf8Lossy (b1 :: bs1)
      | [] => [0xEF, 0xBF, 0xBD]
    else if 0xF0 ≤ b && b ≤ 0xF4 then
      match bs with
      | b1 :: bs1 =>
        if cont4 b b1 then
          match bs1 with
          | b2 :: bs2 =>
            if isCont b2 then
              match bs2 with
              | b3 :: bs3 =>
                if isCont b3 then b :: b1 :: b2 :: b3 :: utf8Lossy bs3
                else 0xEF :: 0xBF :: 0xBD :: utf8Lossy (b3 :: bs3)
              | [] => [0xEF, 0xBF, 0xBD]
            else 0xEF :: 0xBF :: 0xBD :: utf8Lossy (b2 :: bs2)
          | [] => [0xEF, 0xBF, 0xBD]
        else 0xEF :: 0xBF :: 0xBD :: utf8Lossy (b1 :: bs1)
      | [] => [0xEF, 0xBF, 0xBD]
    else 0xEF :: 0xBF :: 0xBD :: utf8Lossy bs

/-- One position entry of a text-search vector (struct LexemeMeta). -/
structure LexemeMeta where
  position : Nat
  weight : Nat
deriving DecidableEq, Repr

/-- Unpacking of a 16-bit value into a LexemeMeta (impl From of u16):
top two bits are the weight, low fourteen bits are the position. -/
def LexemeMeta.fromU16 (value : Nat) : LexemeMeta :=
  { weight := (value >>> 14) &&& 0b11, position := value &&& 0x3fff }

/-- One lexeme of a text-search vector: a word (UTF-8 bytes of the stored
Rust String) and its position entries in stream order. -/
structure Lexeme where
  word : List Nat
  positions : List LexemeMeta
deriving DecidableEq, Repr

/-- A parsed text-search vector (struct TsVector). -/
structure TsVector where
  words : List Lexeme
deriving DecidableEq, Repr

/-- Big-endian 4-byte read (ReadBytesExt read_u32), failing at end of input. -/
def readU32BE : List Nat → Option (Nat × List Nat)
  | b0 :: b1 :: b2 :: b3 :: rest => some (((b0 * 256 + b1) * 256 + b2) * 256 + b3, rest)
  | _ => none

/-- Big-endian 2-byte read (ReadBytesExt read_u16), failing at end of input. -/
def readU16BE : List Nat → Option (Nat × List Nat)
  | b0 :: b1 :: rest => some (b0 * 256 + b1, rest)
  | _ => none

/-- BufRead read_until 0: consume bytes up to and including the first 0
terminator, or all remaining bytes when no terminator occurs; never fails. -/
def readUntilZero : List Nat → List Nat × List Nat
  | [] => ([], [])
  | b :: rest =>
    if b = 0 then ([0], rest)
    else
      let p := readUntilZero rest
      (b :: p.1, p.2)

/-- Drop every trailing zero byte: the byte-level form of
trim_end_matches applied with the NUL character (in valid UTF-8 a trailing
0 byte is always the one-byte character U+0000). -/
def trimEndZeros (l : List Nat) : List Nat :=
  (l.reverse.dropWhile (· == 0)).reverse

/-- Read `n` packed 2-byte position entries. -/
def readPositions : Nat → List Nat → Option (List LexemeMeta × List Nat)
  | 0, bs => some ([], bs)
  | n + 1, bs =>
    match readU16BE bs with
    | none => none
    | some (p, bs1) =>
      match readPositions n bs1 with
      | none => none
      | some (ps, rest) => some (LexemeMeta.fromU16 p :: ps, rest)

/-- Read `n` lexemes: for each, a 0-terminated word (which must be valid
UTF-8), a 2-byte position count, then that many packed positions. -/
def parseLexemes : Nat → List Nat → Option (List Lexeme × List Nat)
  | 0, bs => some ([], bs)
  | n + 1, bs =>
    let buf := (readUntilZero bs).1
    let bs1 := (readUntilZero bs).2
    if utf8Valid buf then
      match readU16BE bs1 with
      | none => none
      | some (numPositions, bs2) =>
        match readPositions numPositions bs2 with
        | none => none
        | some (positions, bs3) =>
          match parseLexemes n bs3 with
          | none => none
          | some (ls, rest) => some ({ word := trimEndZeros buf, positions := positions } :: ls, rest)
    else none

/-- TsVector try_from: a big-endian 4-byte lexeme count followed by that many
lexemes; bytes left after the declared count are ignored. -/
def TsVector.try_from (bytes : List Nat) : Option TsVector :=
  match readU32BE bytes with
  | none => none
  | some (numLexemes, rest) =>
    match parseLexemes numLexemes rest with
    | none => none
    | some (words, _) => some { words := words }

/-- Decimal rendering of a number, as ASCII bytes. -/
def decBytes (n : Nat) : List Nat := (Nat.toDigits 10 n).map Char.toNat

/-- Weight marker of a position entry (the match inside to_string). -/
def weightChar (w : Nat) : Option Char :=
  match w with
  | 3 => some 'A'
  | 2 => some 'B'
  | 1 => some 'C'
  | _ => none

/-- Rendering of one position entry: the decimal position followed by the
Display form of weight_char.unwrap_or_default(). The default of a Rust char
is U+0000, so a missing weight marker contributes the single byte 0. -/
def renderMeta (m : LexemeMeta) : List Nat :=
  decBytes m.position ++ charUtf8 ((weightChar m.weight).getD (Char.ofNat 0))

/-- The join of a list of byte strings with a separator. -/
def joinSep (sep : List Nat) : List (List Nat) → List Nat
  | [] => []
  | [x] => x
  | x :: y :: xs => x ++ sep ++ joinSep sep (y :: xs)

/-- Rendering of one lexeme: the word between single quotes, then, when any
position entries exist, a colon and the comma-joined entries. -/
def renderLexeme (l : Lexeme) : List Nat :=
  let positions := joinSep (strBytes ",") (l.positions.map renderMeta)
  if positions = [] then strBytes "'" ++ l.word ++ strBytes "'"
  else strBytes "'" ++ l.word ++ strBytes "'" ++ strBytes ":" ++ positions

/-- TsVector to_string: space-joined lexeme renderings. -/
def TsVector.to_string (ts : TsVector) : List Nat :=
  joinSep (strBytes " ") (ts.words.map renderLexeme)

/-- Structural kind of a Postgres type (sqlx PgTypeKind). -/
inductive PgTypeKind where
  | simple
  | pseudo
  | domain
  | composite
  | array
  | enum (variants : List (List Nat))
  | range
deriving DecidableEq, Repr

/-- The two error shapes to_json can surface: a wrapped sqlx decode error
(Error::from of sqlx Decode) and Error::UnsupportedDatatype. -/
inductive Error where
  | sqlDecode (msg : String)
  | unsupportedDatatype (name : String)
deriving DecidableEq, Repr

/-- The produced generic value (serde_json Value as constructed here); string
payloads are UTF-8 bytes. The source never constructs the object variant. -/
inductive JsonValue where
  | null
  | bool (b : Bool)
  | num (q : Rat)
  | str (bytes : List Nat)
  | arr (elems : List JsonValue)

/-- A nullable typed column value (sqlx PgValueRef) at the interface boundary:
its nullness, declared type name and kind, the result of as_bytes, and the
outcomes of the driver's typed decode attempts. Temporal decodes are given as
their already-rendered to_string form, since the code only stringifies them. -/
structure PgValueRef where
  isNull : Bool
  typeName : String
  typeKind : PgTypeKind
  asBytes : Except String (List Nat)
  decodeString : Option (List Nat)
  decodeF32 : Option Rat
  decodeF64 : Option Rat
  decodeI16 : Option Int
  decodeI32 : Option Int
  decodeI64 : Option Int
  decodeBool : Option Bool
  decodeDate : Option (List Nat)
  decodeTime : Option (List Nat)
  decodeTimestamp : Option (List Nat)
  decodeTimestampTz : Option (List Nat)
  decodeJson : Option JsonValue
  decodeByteArray : Option (List Nat)

/-- Every type name the dispatcher matches explicitly. -/
def recognizedTypeNames : List String :=
  ["CHAR", "VARCHAR", "TEXT", "NAME", "FLOAT4", "FLOAT8", "INT2", "INT4",
   "INT8", "BOOL", "DATE", "TIME", "TIMESTAMP", "TIMESTAMPTZ", "JSON",
   "JSONB", "BYTEA", "VOID", "tsvector"]

/-- The decode dispatcher (fn to_json). The match on the Rust type-name string
is written as the equivalent chain of equality tests. -/
def to_json (v : PgValueRef) : Except Error JsonValue :=
  if v.isNull then .ok .null
  else if v.typeName = "CHAR" ∨ v.typeName = "VARCHAR" ∨ v.typeName = "TEXT" ∨
      v.typeName = "NAME" then
    .ok (match v.decodeString with | some s => .str s | none => .null)
  else if v.typeName = "FLOAT4" then
    .ok (match v.decodeF32 with | some x => .num x | none => .null)
  else if v.typeName = "FLOAT8" then
    .ok (match v.decodeF64 with | some x => .num x | none => .null)
  else if v.typeName = "INT2" then
    .ok (match v.decodeI16 with | some x => .num (x : Rat) | none => .null)
  else if v.typeName = "INT4" then
    .ok (match v.decodeI32 with | some x => .num (x : Rat) | none => .null)
  else if v.typeName = "INT8" then
    .ok (match v.decodeI64 with | some x => .num (x : Rat) | none => .null)
  else if v.typeName = "BOOL" then
    .ok (match v.decodeBool with | some b => .bool b | none => .null)
  else if v.typeName = "DATE" then
    .ok (match v.decodeDate with | some s => .str s | none => .null)
  else if v.typeName = "TIME" then
    .ok (match v.decodeTime with | some s => .str s | none => .null)
  else if v.typeName = "TIMESTAMP" then
    .ok (match v.decodeTimestamp with | some s => .str s | none => .null)
  else if v.typeName = "TIMESTAMPTZ" then
    .ok (match v.decodeTimestampTz with | some s => .str s | none => .null)
  else if v.typeName = "JSON" ∨ v.typeName = "JSONB" then
    .ok (v.decodeJson.getD .null)
  else if v.typeName = "BYTEA" then
    .ok (match v.decodeByteArray with
         | some bs => .arr (bs.map fun n => .num (n : Rat))
         | none => .null)
  else if v.typeName = "VOID" then
    .ok .null
  else if v.typeName = "tsvector" then
    match v.asBytes with
    | .error e => .error (.sqlDecode e)
    | .ok bytes =>
      match TsVector.try_from bytes with
      | some ts => .ok (.str ts.to_string)
      | none => .ok .null
  else
    match v.typeKind with
    | .enum variants =>
      match v.asBytes with
      | .error e => .error (.sqlDecode e)
      | .ok bytes =>
        if variants.contains (utf8Lossy bytes) then .ok (.str (utf8Lossy bytes))
        else .ok .null
    | _ =>
      match v.asBytes with
      | .error _ => .error (.unsupportedDatatype v.typeName)
      | .ok _ =>
        .ok (match v.decodeString with | some s => .str s | none => .null)

/-- The test vector from the round-trip property: lexeme_count 1, the word cat
with its terminator, position_count 2, packed weight 3 position 1 (0xC001),
packed weight 0 position 5. -/
def catBytes : List Nat :=
  [0, 0, 0, 1, 99, 97, 116, 0, 0, 2, 192, 1, 0, 5]

/-- The single lexeme catBytes parses to: the word cat, one position entry
with weight 3 at position 1 and one with weight 0 at position 5. -/
def catLexeme : Lexeme :=
  { word := [99, 97, 116],
    positions := [{ position := 1, weight := 3 },
                  { position := 5, weight := 0 }] }

/-- The vector catBytes parses to. -/
def catVector : TsVector := { words := [catLexeme] }

/-- An oracle value with every decode attempt failed except a chosen string
decode; used to instantiate dispatcher theorems. -/
def sampleVal (isNull : Bool) (name : String) (kind : PgTypeKind)
    (asBytes : Except String (List Nat)) (ds : Option (List Nat)) : PgValueRef :=
  { isNull := isNull, typeName := name, typeKind := kind, asBytes := asBytes,
    decodeString := ds, decodeF32 := none, decodeF64 := none, decodeI16 := none,
    decodeI32 := none, decodeI64 := none, decodeBool := none, decodeDate := none,
    decodeTime := none, decodeTimestamp := none, decodeTimestampTz := none,
    decodeJson := none, decodeByteArray := none }

/-- Bytes declaring one lexeme whose word holds a quote, a space and a quote
(a then quote then space then quote then b), with zero positions. -/
def quoteBytes1 : List Nat := [0, 0, 0, 1] ++ [97, 39, 32, 39, 98, 0] ++ [0, 0]

/-- Bytes declaring two one-letter lexemes a and b, each with zero positions. -/
def quoteBytes2 : List Nat := [0, 0, 0, 2, 97, 0, 0, 0, 98, 0, 0, 0]

/-- The vector quoteBytes1 parses to. -/
def quoteVec1 : TsVector :=
  { words := [{ word := [97, 39, 32, 39, 98], positions := [] }] }

/-- The vector quoteBytes2 parses to. -/
def quoteVec2 : TsVector :=
  { words := [{ word := [97], positions := [] },
              { word := [98], positions := [] }] }

/-- When the input holds no 0 byte, read_until consumes everything and leaves
an empty rest. -/
theorem readUntilZero_no_zero (bs : List Nat) (h : 0 ∉ bs) :
    readUntilZero bs = (bs, []) := by
  induction bs with
  | nil => rfl
  | cons b rest ih =>
    have hb : ¬b = 0 := fun hb => h (by simp [hb])
    have hr : 0 ∉ rest := fun hm => h (by simp [hm])
    simp [readUntilZero, hb, ih hr]

/-- When the input holds a 0 byte, the read buffer is a zero-free prefix
followed by the terminator. -/
theorem readUntilZero_terminated (bs : List Nat) (h : 0 ∈ bs) :
    ∃ w r, readUntilZero bs = (w ++ [0], r) ∧ 0 ∉ w := by
  induction bs with
  | nil => cases h
  | cons b rest ih =>
    by_cases hb : b = 0
    · exact ⟨[], rest, by simp [readUntilZero, hb], by simp⟩
    · have hr : 0 ∈ rest := by
        rcases List.mem_cons.mp h with h1 | h1
        · exact absurd h1.symm hb
        · exact h1
      obtain ⟨w, r, hw, hnw⟩ := ih hr
      refine ⟨b :: w, r, ?_, ?_⟩
      · simp [readUntilZero, hb, hw]
      · intro hm
        rcases List.mem_cons.mp hm with h1 | h1
        · exact hb h1.symm
        · exact hnw h1

/-- Trimming trailing zeros ignores a final zero byte. -/
theorem trimEndZeros_append_zero (w : List Nat) :
    trimEndZeros (w ++ [0]) = trimEndZeros w := by
  simp [trimEndZeros, List.dropWhile]

/-- Every byte of the trimmed list is a byte of the original. -/
theorem mem_trimEndZeros {x : Nat} {l : List Nat} (h : x ∈ trimEndZeros l) :
    x ∈ l := by
  have h1 : x ∈ l.reverse.dropWhile (· == 0) := by
    simpa [trimEndZeros] using h
  exact List.mem_reverse.mp ((List.dropWhile_sublist _).mem h1)

/-- When the remaining bytes hold no terminator, the word read consumes them
all and the following 2-byte count read fails, so the lexeme loop fails. -/
theorem parseLexemes_no_terminator (n : Nat) (bs : List Nat) (h : 0 ∉ bs) :
    parseLexemes (n + 1) bs = none := by
  simp [parseLexemes, readUntilZero_no_zero bs h, readU16BE]

/-- Every word stored by the lexeme loop is free of the byte 0. -/
theorem parseLexemes_no_zero_words :
    ∀ (n : Nat) (bs : List Nat) (ls : List Lexeme) (r : List Nat),
      parseLexemes n bs = some (ls, r) → ∀ l ∈ ls, 0 ∉ l.word := by
  intro n
  induction n with
  | zero =>
    intro bs ls r h l hl
    simp [parseLexemes] at h
    rw [h.1] at hl
    cases hl
  | succ n ih =>
    intro bs ls r h l hl
    by_cases h0 : 0 ∈ bs
    · obtain ⟨w, r2, hw, hnw⟩ := readUntilZero_terminated bs h0
      simp only [parseLexemes, hw] at h
      split at h
      · split at h
        · cases h
        · rename_i numPos bs2 h16
          split at h
          · cases h
          · rename_i poss bs3 hps
            split at h
            · cases h
            · rename_i ls2 rest2 hrest
              simp only [Option.some.injEq, Prod.mk.injEq] at h
              rw [← h.1] at hl
              rcases List.mem_cons.mp hl with h1 | h1
              · rw [h1]
                intro hmem
                simp only [trimEndZeros_append_zero] at hmem
                exact hnw (mem_trimEndZeros hmem)
              · exact ih bs3 ls2 rest2 hrest l h1
      · cases h
    · rw [parseLexemes_no_terminator] at h
      · cases h
      · exact h0

/-- Fewer than two bytes fail the 2-byte read. -/
theorem readU16BE_short (bs : List Nat) (h : bs.length < 2) :
    readU16BE bs = none := by
  rcases bs with _ | ⟨a, _ | ⟨b, r⟩⟩
  · rfl
  · rfl
  · simp only [List.length_cons] at h
    omega

/-- Fewer than four bytes fail the leading 4-byte count read, so parsing
fails. -/
theorem try_from_short (bytes : List Nat) (h : bytes.length < 4) :
    TsVector.try_from bytes = none := by
  rcases bytes with _ | ⟨a, _ | ⟨b, _ | ⟨c, _ | ⟨d, r⟩⟩⟩⟩
  · rfl
  · rfl
  · rfl
  · rfl
  · simp only [List.length_cons] at h
    omega

/-- Fewer than two bytes per declared position entry fail the position loop. -/
theorem readPositions_short :
    ∀ (n : Nat) (bs : List Nat), bs.length < 2 * n → readPositions n bs = none := by
  intro n
  induction n with
  | zero => intro bs h; omega
  | succ n ih =>
    intro bs h
    rcases bs with _ | ⟨a, _ | ⟨b, r⟩⟩
    · rfl
    · rfl
    · have hr : readPositions n r = none := by
        refine ih r ?_
        simp only [List.length_cons] at h
        omega
      simp [readPositions, readU16BE, hr]

/-- A successful 4-byte read is unchanged by appending bytes. -/
theorem readU32BE_append {bs : List Nat} {v : Nat} {r : List Nat} (e : List Nat)
    (h : readU32BE bs = some (v, r)) :
    readU32BE (bs ++ e) = some (v, r ++ e) := by
  rcases bs with _ | ⟨a, _ | ⟨b, _ | ⟨c, _ | ⟨d, rest⟩⟩⟩⟩ <;> simp_all [readU32BE]

/-- A successful 2-byte read is unchanged by appending bytes. -/
theorem readU16BE_append {bs : List Nat} {v : Nat} {r : List Nat} (e : List Nat)
    (h : readU16BE bs = some (v, r)) :
    readU16BE (bs ++ e) = some (v, r ++ e) := by
  rcases bs with _ | ⟨a, _ | ⟨b, rest⟩⟩ <;> simp_all [readU16BE]

/-- A terminated word read is unchanged by appending bytes. -/
theorem readUntilZero_append (bs e : List Nat) (h : 0 ∈ bs) :
    readUntilZero (bs ++ e) = ((readUntilZero bs).1, (readUntilZero bs).2 ++ e) := by
  induction bs with
  | nil => cases h
  | cons b rest ih =>
    by_cases hb : b = 0
    · simp [readUntilZero, hb]
    · have hr : 0 ∈ rest := by
        rcases List.mem_cons.mp h with h1 | h1
        · exact absurd h1.symm hb
        · exact h1
      simp [readUntilZero, hb, ih hr]

/-- A successful position loop is unchanged by appending bytes. -/
theorem readPositions_append :
    ∀ (n : Nat) {bs : List Nat} {ps : List LexemeMeta} {r : List Nat} (e : List Nat),
      readPositions n bs = some (ps, r) →
      readPositions n (bs ++ e) = some (ps, r ++ e) := by
  intro n
  induction n with
  | zero =>
    intro bs ps r e h
    simp only [readPositions, Option.some.injEq, Prod.mk.injEq] at h ⊢
    obtain ⟨rfl, rfl⟩ := h
    exact ⟨rfl, rfl⟩
  | succ n ih =>
    intro bs ps r e h
    simp only [readPositions] at h ⊢
    split at h
    · cases h
    · rename_i p bs1 h16
      simp only [readU16BE_append e h16]
      split at h
      · cases h
      · rename_i ps1 rest1 hps
        simp only [ih e hps]
        simpa using h

/-- A successful lexeme loop is unchanged by appending bytes. -/
theorem parseLexemes_append :
    ∀ (n : Nat) {bs : List Nat} {ls : List Lexeme} {r : List Nat} (e : List Nat),
      parseLexemes n bs = some (ls, r) →
      parseLexemes n (bs ++ e) = some (ls, r ++ e) := by
  intro n
  induction n with
  | zero =>
    intro bs ls r e h
    simp only [parseLexemes, Option.some.injEq, Prod.mk.injEq] at h ⊢
    obtain ⟨rfl, rfl⟩ := h
    exact ⟨rfl, rfl⟩
  | succ n ih =>
    intro bs ls r e h
    by_cases h0 : 0 ∈ bs
    · have hz := readUntilZero_append bs e h0
      simp only [parseLexemes, hz] at h ⊢
      cases hval : utf8Valid (readUntilZero bs).1 with
      | false => simp [hval] at h
      | true =>
        simp only [hval, if_true] at h ⊢
        split at h
        · cases h
        · rename_i numPos bs2 h16
          simp only [readU16BE_append e h16]
          split at h
          · cases h
          · rename_i poss bs3 hps
            simp only [readPositions_append numPos e hps]
            split at h
            · cases h
            · rename_i ls2 rest2 hrest
              simp only [ih e hrest]
              simpa using h
    · rw [parseLexemes_no_terminator n bs h0] at h
      cases h

/-- A successful parse is unchanged by appending bytes: trailing bytes after
the declared lexeme count are ignored. -/
theorem try_from_append (bytes e : List Nat) (ts : TsVector)
    (h : TsVector.try_from bytes = some ts) :
    TsVector.try_from (bytes ++ e) = some ts := by
  unfold TsVector.try_from at h ⊢
  split at h
  · cases h
  · rename_i n rest h32
    simp only [readU32BE_append e h32]
    split at h
    · cases h
    · rename_i ws r hp
      simp only [parseLexemes_append n e hp]
      simpa using h

/-- C5: running out of bytes mid-read is a parse failure — at the 4-byte
lexeme count, at a word read (no terminator left means the following 2-byte
count read fails), at a 2-byte read, and inside the packed-position loop; the
dispatcher maps a tsvector parse failure to ok Null, not an error; and bytes
after the declared lexeme count are ignored. -/
theorem c5_truncation_policy :
    (∀ bytes : List Nat, bytes.length < 4 → TsVector.try_from bytes = none)
    ∧ (∀ (n : Nat) (bytes : List Nat), 0 ∉ bytes → parseLexemes (n + 1) bytes = none)
    ∧ (∀ bytes : List Nat, bytes.length < 2 → readU16BE bytes = none)
    ∧ (∀ (n : Nat) (bytes : List Nat), bytes.length < 2 * n →
        readPositions n bytes = none)
    ∧ (∀ (v : PgValueRef) (bytes : List Nat), v.isNull = false →
        v.typeName = "tsvector" → v.asBytes = .ok bytes →
        TsVector.try_from bytes = none → to_json v = .ok .null)
    ∧ (∀ (bytes extra : List Nat) (ts : TsVector),
        TsVector.try_from bytes = some ts →
        TsVector.try_from (bytes ++ extra) = some ts) := by
  refine ⟨try_from_short, parseLexemes_no_terminator, readU16BE_short,
    readPositions_short, ?_, fun bytes extra ts h => try_from_append bytes extra ts h⟩
  intro v bytes hn hname hab hparse
  obtain ⟨isN, name, k, ab, ds, a1, a2, a3, a4, a5, a6, a7, a8, a9, a10, a11, a12⟩ := v
  simp only at hn hname hab
  subst hn
  subst hname
  subst hab
  simp [to_json, hparse]

/-- Witness for C5 at concrete inputs: a truncated count, a word with no
terminator, short 2-byte reads, a short position block, a tsvector value whose
declared count exceeds the bytes, and the round-trip bytes with two trailing
junk bytes. -/
theorem c5_truncation_policy_witness :
    TsVector.try_from [0, 0, 0] = none
    ∧ parseLexemes 1 [1, 2, 3] = none
    ∧ readU16BE [7] = none
    ∧ readPositions 2 [1, 2, 3] = none
    ∧ to_json (sampleVal false "tsvector" .simple
        (.ok [0, 0, 0, 2, 99, 97, 116, 0, 0, 0]) none) = .ok .null
    ∧ TsVector.try_from (catBytes ++ [9, 9]) = some catVector :=
  ⟨c5_truncation_policy.1 _ (by decide),
   c5_truncation_policy.2.1 0 _ (by decide),
   c5_truncation_policy.2.2.1 _ (by decide),
   c5_truncation_policy.2.2.2.1 2 _ (by decide),
   c5_truncation_policy.2.2.2.2.1 _ _ rfl rfl rfl (by decide),
   c5_truncation_policy.2.2.2.2.2 _ _ _ (by decide)⟩

/-- C9: rendering puts each word verbatim between single quotes, with no
escaping: the quote-word-quote bytes are a prefix of every lexeme rendering,
and two distinct parsed vectors — one whose single word itself holds quote,
space, quote — render to the same string. -/
theorem c9_verbatim_quoting :
    (∀ l : Lexeme, strBytes "'" ++ l.word ++ strBytes "'" <+: renderLexeme l)
    ∧ TsVector.try_from quoteBytes1 = some quoteVec1
    ∧ TsVector.try_from quoteBytes2 = some quoteVec2
    ∧ (∀ l ∈ quoteVec1.words, 39 ∈ l.word)
    ∧ quoteVec1 ≠ quoteVec2
    ∧ quoteVec1.to_string = quoteVec2.to_string := by
  refine ⟨?_, by decide, by decide, by decide, by decide, by decide⟩
  intro l
  simp only [renderLexeme]
  split
  · exact ⟨[], by simp⟩
  · exact ⟨strBytes ":" ++ joinSep (strBytes ",") (l.positions.map renderMeta),
      by simp⟩

/-- C10: whenever the parser succeeds, no stored lexeme word holds a 0 byte:
the word read stops at the first terminator and trailing NULs are trimmed. -/
theorem c10_no_nul_in_words (bytes : List Nat) (ts : TsVector)
    (h : TsVector.try_from bytes = some ts) : ∀ l ∈ ts.words, 0 ∉ l.word := by
  unfold TsVector.try_from at h
  cases h32 : readU32BE bytes with
  | none => rw [h32] at h; cases h
  | some p =>
    rw [h32] at h
    obtain ⟨n, rest⟩ := p
    simp only at h
    cases hp : parseLexemes n rest with
    | none => rw [hp] at h; cases h
    | some q =>
      rw [hp] at h
      obtain ⟨ws, r⟩ := q
      simp only [Option.some.injEq] at h
      rw [← h]
      exact parseLexemes_no_zero_words n rest ws r hp

/-- Witness for C10 on the round-trip bytes. -/
theorem c10_no_nul_in_words_witness : 0 ∉ catLexeme.word :=
  c10_no_nul_in_words catBytes catVector (by decide) catLexeme (by decide)

/-- C1: on the round-trip bytes (lexeme_count 1, word cat, position_count 2,
packed weight 3 position 1 and weight 0 position 5), parse-then-render yields
the bytes of the claimed string with an extra trailing 0 byte: the weight-0
entry makes the code append the Display form of unwrap_or_default of the
absent weight character, which is the NUL character, not the empty string. -/
theorem c1_weight_zero_appends_nul :
    (TsVector.try_from catBytes).map TsVector.to_string
      = some (strBytes "'cat':1A,5" ++ [0])
    ∧ (TsVector.try_from catBytes).map TsVector.to_string
      ≠ some (strBytes "'cat':1A,5") := by
  constructor
  · decide
  · decide

/-- C6: unpacking a 16-bit packed value yields weight equal to the top two
bits and position equal to the low fourteen bits, so the constructed
LexemeMeta always has weight at most 3 and position at most 16383. -/
theorem c6_unpack_bit_fields (value : Nat) (h : value < 65536) :
    LexemeMeta.fromU16 value
      = { position := value &&& 0x3fff, weight := (value >>> 14) &&& 0b11 }
    ∧ (LexemeMeta.fromU16 value).weight ≤ 3
    ∧ (LexemeMeta.fromU16 value).position ≤ 16383 :=
  ⟨rfl, Nat.and_le_right, Nat.and_le_right⟩

/-- Witness for C6 at the packed value 0xC001 (weight 3, position 1). -/
theorem c6_unpack_bit_fields_witness :
    LexemeMeta.fromU16 49153
      = { position := 49153 &&& 0x3fff, weight := (49153 >>> 14) &&& 0b11 }
    ∧ (LexemeMeta.fromU16 49153).weight ≤ 3
    ∧ (LexemeMeta.fromU16 49153).position ≤ 16383 :=
  c6_unpack_bit_fields 49153 (by decide)

/-- C7: a null column value decodes to Null immediately, whatever the type
name, kind, bytes or decode oracles say. -/
theorem c7_null_short_circuit (v : PgValueRef) (h : v.isNull = true) :
    to_json v = .ok .null := by
  simp [to_json, h]

/-- Witness for C7: a null INT4 value with failing byte extraction. -/
theorem c7_null_short_circuit_witness :
    to_json (sampleVal true "INT4" .simple (.error "boom") none) = .ok .null :=
  c7_null_short_circuit _ rfl

/-- C8: a non-null VOID value decodes to Null unconditionally; no oracle is
consulted. -/
theorem c8_void_always_null (v : PgValueRef) (h1 : v.isNull = false)
    (h2 : v.typeName = "VOID") : to_json v = .ok .null := by
  obtain ⟨isN, name, k, ab, ds, a1, a2, a3, a4, a5, a6, a7, a8, a9, a10, a11, a12⟩ := v
  simp only at h1 h2
  subst h1
  subst h2
  rfl

/-- Witness for C8: a VOID value with present, decodable bytes. -/
theorem c8_void_always_null_witness :
    to_json (sampleVal false "VOID" .simple (.ok (strBytes "hi"))
      (some (strBytes "hi"))) = .ok .null :=
  c8_void_always_null _ rfl rfl

/-- C3: for a non-null value with unrecognized type name and non-enum kind,
a failed byte extraction propagates UnsupportedDatatype with the type name;
otherwise a successful generic text decode yields String and a failed one
yields Null. -/
theorem c3_unrecognized_fallback (v : PgValueRef)
    (hn : v.isNull = false)
    (hr : v.typeName ∉ recognizedTypeNames)
    (hk : ∀ variants, v.typeKind ≠ PgTypeKind.enum variants) :
    (∀ msg, v.asBytes = .error msg →
      to_json v = .error (.unsupportedDatatype v.typeName))
    ∧ (∀ bytes s, v.asBytes = .ok bytes → v.decodeString = some s →
      to_json v = .ok (.str s))
    ∧ (∀ bytes, v.asBytes = .ok bytes → v.decodeString = none →
      to_json v = .ok .null) := by
  obtain ⟨isN, name, k, ab, ds, a1, a2, a3, a4, a5, a6, a7, a8, a9, a10, a11, a12⟩ := v
  simp only at hn hr hk ⊢
  subst hn
  simp only [recognizedTypeNames, List.mem_cons, List.not_mem_nil, or_false,
    not_or] at hr
  obtain ⟨e1, e2, e3, e4, e5, e6, e7, e8, e9, e10, e11, e12, e13, e14, e15,
    e16, e17, e18, e19⟩ := hr
  simp only [to_json]
  rw [if_neg (by simp), if_neg (by simp [e1, e2, e3, e4]), if_neg e5, if_neg e6,
    if_neg e7, if_neg e8, if_neg e9, if_neg e10, if_neg e11, if_neg e12,
    if_neg e13, if_neg e14, if_neg (by simp [e15, e16]), if_neg e17,
    if_neg e18, if_neg e19]
  cases k
  case enum variants => exact absurd rfl (hk variants)
  all_goals
    exact ⟨fun msg hab => by subst hab; rfl,
           fun bytes s hab hds => by subst hab; subst hds; rfl,
           fun bytes hab hds => by subst hab; subst hds; rfl⟩

/-- Witness for C3: an unknown non-enum type with decodable text, and the
same type with failing byte extraction. -/
theorem c3_unrecognized_fallback_witness :
    to_json (sampleVal false "custom" .simple (.ok (strBytes "hello"))
        (some (strBytes "hello")))
      = .ok (.str (strBytes "hello"))
    ∧ to_json (sampleVal false "custom" .simple (.error "boom") none)
      = .error (.unsupportedDatatype "custom") :=
  ⟨(c3_unrecognized_fallback _ rfl (by decide)
      (fun _ h => by simp [sampleVal] at h)).2.1 _ _ rfl rfl,
   (c3_unrecognized_fallback _ rfl (by decide)
      (fun _ h => by simp [sampleVal] at h)).1 _ rfl⟩

/-- C4: for a non-null value with unrecognized type name and Enum kind, a
failed byte extraction propagates a decode error; otherwise the bytes are
read with lossy UTF-8 conversion (a total function) and the result is String
of the text when it is one of the declared variants, Null otherwise. -/
theorem c4_enum_fallback (v : PgValueRef) (variants : List (List Nat))
    (hn : v.isNull = false)
    (hr : v.typeName ∉ recognizedTypeNames)
    (hk : v.typeKind = PgTypeKind.enum variants) :
    (∀ msg, v.asBytes = .error msg → to_json v = .error (.sqlDecode msg))
    ∧ (∀ bytes, v.asBytes = .ok bytes → utf8Lossy bytes ∈ variants →
        to_json v = .ok (.str (utf8Lossy bytes)))
    ∧ (∀ bytes, v.asBytes = .ok bytes → utf8Lossy bytes ∉ variants →
        to_json v = .ok .null) := by
  obtain ⟨isN, name, k, ab, ds, a1, a2, a3, a4, a5, a6, a7, a8, a9, a10, a11, a12⟩ := v
  simp only at hn hr hk ⊢
  subst hn
  subst hk
  simp only [recognizedTypeNames, List.mem_cons, List.not_mem_nil, or_false,
    not_or] at hr
  obtain ⟨e1, e2, e3, e4, e5, e6, e7, e8, e9, e10, e11, e12, e13, e14, e15,
    e16, e17, e18, e19⟩ := hr
  simp only [to_json]
  rw [if_neg (by simp), if_neg (by simp [e1, e2, e3, e4]), if_neg e5, if_neg e6,
    if_neg e7, if_neg e8, if_neg e9, if_neg e10, if_neg e11, if_neg e12,
    if_neg e13, if_neg e14, if_neg (by simp [e15, e16]), if_neg e17,
    if_neg e18, if_neg e19]
  refine ⟨fun msg hab => by subst hab; rfl, fun bytes hab hmem => ?_,
    fun bytes hab hmem => ?_⟩
  · subst hab
    exact if_pos (List.elem_eq_true_of_mem hmem)
  · subst hab
    exact if_neg (fun hc => hmem (List.mem_of_elem_eq_true hc))

/-- C2: to_json propagates an error exactly when the value is non-null, raw
byte extraction fails, and the type is the tsvector one or dispatches
structurally (name unrecognized); and for every recognized non-tsvector type
name, when every typed decode attempt fails the result is ok Null, never an
error. -/
theorem c2_error_propagation :
    (∀ v : PgValueRef,
      (∃ e, to_json v = .error e)
        ↔ v.isNull = false
          ∧ (∃ msg, v.asBytes = .error msg)
          ∧ (v.typeName = "tsvector" ∨ v.typeName ∉ recognizedTypeNames))
    ∧ (∀ v : PgValueRef, v.isNull = false →
        v.typeName ∈ recognizedTypeNames → v.typeName ≠ "tsvector" →
        v.decodeString = none → v.decodeF32 = none → v.decodeF64 = none →
        v.decodeI16 = none → v.decodeI32 = none → v.decodeI64 = none →
        v.decodeBool = none → v.decodeDate = none → v.decodeTime = none →
        v.decodeTimestamp = none → v.decodeTimestampTz = none →
        v.decodeJson = none → v.decodeByteArray = none →
        to_json v = .ok .null) := by
  constructor
  · intro v
    obtain ⟨isN, name, k, ab, ds, a1, a2, a3, a4, a5, a6, a7, a8, a9, a10, a11, a12⟩ := v
    cases isN with
    | true => simp [to_json]
    | false =>
      simp only [to_json]
      rw [if_neg (by simp)]
      by_cases q1 : name = "CHAR" ∨ name = "VARCHAR" ∨ name = "TEXT" ∨ name = "NAME"
      · rw [if_pos q1]
        rcases q1 with rfl | rfl | rfl | rfl <;> cases ds <;>
          simp [recognizedTypeNames]
      rw [if_neg q1]
      by_cases q2 : name = "FLOAT4"
      · rw [if_pos q2]; subst q2; cases a1 <;> simp [recognizedTypeNames]
      rw [if_neg q2]
      by_cases q3 : name = "FLOAT8"
      · rw [if_pos q3]; subst q3; cases a2 <;> simp [recognizedTypeNames]
      rw [if_neg q3]
      by_cases q4 : name = "INT2"
      · rw [if_pos q4]; subst q4; cases a3 <;> simp [recognizedTypeNames]
      rw [if_neg q4]
      by_cases q5 : name = "INT4"
      · rw [if_pos q5]; subst q5; cases a4 <;> simp [recognizedTypeNames]
      rw [if_neg q5]
      by_cases q6 : name = "INT8"
      · rw [if_pos q6]; subst q6; cases a5 <;> simp [recognizedTypeNames]
      rw [if_neg q6]
      by_cases q7 : name = "BOOL"
      · rw [if_pos q7]; subst q7; cases a6 <;> simp [recognizedTypeNames]
      rw [if_neg q7]
      by_cases q8 : name = "DATE"
      · rw [if_pos q8]; subst q8; cases a7 <;> simp [recognizedTypeNames]
      rw [if_neg q8]
      by_cases q9 : name = "TIME"
      · rw [if_pos q9]; subst q9; cases a8 <;> simp [recognizedTypeNames]
      rw [if_neg q9]
      by_cases q10 : name = "TIMESTAMP"
      · rw [if_pos q10]; subst q10; cases a9 <;> simp [recognizedTypeNames]
      rw [if_neg q10]
      by_cases q11 : name = "TIMESTAMPTZ"
      · rw [if_pos q11]; subst q11; cases a10 <;> simp [recognizedTypeNames]
      rw [if_neg q11]
      by_cases q12 : name = "JSON" ∨ name = "JSONB"
      · rw [if_pos q12]
        rcases q12 with rfl | rfl <;> simp [recognizedTypeNames]
      rw [if_neg q12]
      by_cases q13 : name = "BYTEA"
      · rw [if_pos q13]; subst q13; cases a12 <;> simp [recognizedTypeNames]
      rw [if_neg q13]
      by_cases q14 : name = "VOID"
      · rw [if_pos q14]; subst q14; simp [recognizedTypeNames]
      rw [if_neg q14]
      by_cases q15 : name = "tsvector"
      · rw [if_pos q15]
        subst q15
        cases ab with
        | error msg => simp [recognizedTypeNames]
        | ok bytes =>
          cases htf : TsVector.try_from bytes <;>
            simp [recognizedTypeNames, htf]
      rw [if_neg q15]
      have hrec : name ∉ recognizedTypeNames := by
        simp only [recognizedTypeNames, List.mem_cons, List.not_mem_nil,
          or_false, not_or]
        push_neg at q1 q12
        exact ⟨q1.1, q1.2.1, q1.2.2.1, q1.2.2.2, q2, q3, q4, q5, q6, q7, q8,
          q9, q10, q11, q12.1, q12.2, q13, q14, q15⟩
      cases k with
      | enum variants =>
        cases ab with
        | error msg => simp [hrec]
        | ok bytes =>
          split
          · split
            · simp_all
            · split <;> simp
          · rename_i hne
            exact absurd rfl (hne variants)
      | simple => cases ab with
        | error msg => simp [hrec]
        | ok bytes => cases ds <;> simp
      | pseudo => cases ab with
        | error msg => simp [hrec]
        | ok bytes => cases ds <;> simp
      | domain => cases ab with
        | error msg => simp [hrec]
        | ok bytes => cases ds <;> simp
      | composite => cases ab with
        | error msg => simp [hrec]
        | ok bytes => cases ds <;> simp
      | array => cases ab with
        | error msg => simp [hrec]
        | ok bytes => cases ds <;> simp
      | range => cases ab with
        | error msg => simp [hrec]
        | ok bytes => cases ds <;> simp
  · intro v hn hrec hnots hds h1 h2 h3 h4 h5 h6 h7 h8 h9 h10 h11 h12
    obtain ⟨isN, name, k, ab, ds, a1, a2, a3, a4, a5, a6, a7, a8, a9, a10, a11, a12⟩ := v
    simp only at hn hrec hnots hds h1 h2 h3 h4 h5 h6 h7 h8 h9 h10 h11 h12
    subst hn
    subst hds
    subst h1
    subst h2
    subst h3
    subst h4
    subst h5
    subst h6
    subst h7
    subst h8
    subst h9
    subst h10
    subst h11
    subst h12
    simp only [recognizedTypeNames, List.mem_cons, List.not_mem_nil,
      or_false] at hrec
    rcases hrec with rfl | rfl | rfl | rfl | rfl | rfl | rfl | rfl | rfl |
      rfl | rfl | rfl | rfl | rfl | rfl | rfl | rfl | rfl | rfl
    all_goals first
      | rfl
      | exact absurd rfl hnots

/-- Witness for C2: a propagated error for an unknown type whose byte
extraction fails, and silent Null for an INT4 whose typed decode fails. -/
theorem c2_error_propagation_witness :
    (∃ e, to_json (sampleVal false "custom" .simple (.error "boom") none)
      = .error e)
    ∧ to_json (sampleVal false "INT4" .simple (.error "boom") none)
      = .ok .null :=
  ⟨(c2_error_propagation.1 _).mpr ⟨rfl, ⟨"boom", rfl⟩, Or.inr (by decide)⟩,
   c2_error_propagation.2 _ rfl (by decide) (by decide) rfl rfl rfl rfl rfl
     rfl rfl rfl rfl rfl rfl rfl rfl⟩

/-- Witness for C4: variants red, green, blue with raw bytes green, then with
raw bytes purple. -/
theorem c4_enum_fallback_witness :
    to_json (sampleVal false "mood"
        (.enum [strBytes "red", strBytes "green", strBytes "blue"])
        (.ok (strBytes "green")) none)
      = .ok (.str (utf8Lossy (strBytes "green")))
    ∧ to_json (sampleVal false "mood"
        (.enum [strBytes "red", strBytes "green", strBytes "blue"])
        (.ok (strBytes "purple")) none)
      = .ok .null :=
  ⟨(c4_enum_fallback _ _ rfl (by decide) rfl).2.1 _ rfl (by decide),
   (c4_enum_fallback _ _ rfl (by decide) rfl).2.2 _ rfl (by decide)⟩

end PgDecode
